import Mathlib

/-!
Verification of the Tara-Voice halftone rendering engine
(`src/components/HalftoneCanvas.tsx`) against its specification.

The source is a TypeScript React component.  We shallowly embed the pure
algorithmic core in Lean:

* floating-point numbers are modelled as real numbers (`ℝ`) where
  transcendental functions (`Math.exp`, `Math.sqrt`) occur and as rational
  numbers (`ℚ`) elsewhere, so that concrete runs can be evaluated by `decide`;
* stateful manager classes (`WaveManager`, `RippleManager`,
  `LoopPulseManager`) become structures with explicit state-passing update
  functions;
* `Date.now()` / `performance.now()` become explicit `now` parameters.
-/

/-! ## Falloff model (`calculateDotSize`, HalftoneCanvas.tsx lines 1099–1117) -/

/-- The `falloffType` parameter of `HalftoneParams`:
`'linear' | 'exponential' | 'inverse-square'`. -/
inductive FalloffType where
  | linear
  | exponential
  | inverseSquare
deriving DecidableEq, Repr

/-- `Math.max(0, Math.min(1, x))`, the clamp applied to `falloffFactor`. -/
noncomputable def clamp01 (x : ℝ) : ℝ := max 0 (min 1 x)

/-- `calculateDotSize(distance, maxDistance)`.  The captured React params
(`falloffType`, `falloffIntensity`, `minDotSize`, `maxDotSize`) are passed
explicitly.  Mirrors HalftoneCanvas.tsx lines 1099–1117. -/
noncomputable def calculateDotSize (falloffType : FalloffType)
    (falloffIntensity minDotSize maxDotSize : ℝ)
    (distance maxDistance : ℝ) : ℝ :=
  let normalizedDistance := distance / maxDistance
  let falloffFactor :=
    match falloffType with
    | .linear => 1 - normalizedDistance
    | .exponential => Real.exp (-normalizedDistance * falloffIntensity)
    | .inverseSquare => 1 / (1 + normalizedDistance * falloffIntensity)
  minDotSize + (maxDotSize - minDotSize) * clamp01 falloffFactor

/-! ## Frequency-reactive managers (`WaveManager`, `RippleManager`)

HalftoneCanvas.tsx lines 137–483.  Numeric fields are modelled as `ℚ`.
The `id` field (a string built from `Date.now()` and `Math.random()`, used
only for debug logging) is not modelled.  `Date.now()` becomes an explicit
`now : ℚ` argument (milliseconds). -/

/-- The `frequency` tag `'bass' | 'mid' | 'treble'`. -/
inductive Band where
  | bass
  | mid
  | treble
deriving DecidableEq, Repr

/-- The four normalized audio levels consumed by the managers. -/
structure AudioData where
  bassLevel : ℚ
  midLevel : ℚ
  trebleLevel : ℚ
  averageLevel : ℚ
deriving DecidableEq, Repr

/-- Wave speed per band (line 166): bass 1, mid 3, treble 6. -/
def waveSpeed : Band → ℚ
  | .bass => 1
  | .mid => 3
  | .treble => 6

/-- Wave `maxRadius` multiplier per band (line 169): 1.2 / 0.8 / 0.4. -/
def waveMaxRadiusFactor : Band → ℚ
  | .bass => 1.2
  | .mid => 0.8
  | .treble => 0.4

/-- Wave decay rate per band (line 170): 0.998 / 0.995 / 0.99. -/
def waveDecayRate : Band → ℚ
  | .bass => 0.998
  | .mid => 0.995
  | .treble => 0.99

/-- Wave spawn cooldowns in ms (lines 257–271): bass 200, mid 100, treble 50. -/
def waveCooldown : Band → ℚ
  | .bass => 200
  | .mid => 100
  | .treble => 50

/-- Wave spawn threshold (lines 222–224): 0.001 for every band. -/
def waveThreshold : ℚ := 0.001

/-- A `Wave` emission (interface at lines 115–124, `id` not modelled). -/
structure Wave where
  birthTime : ℚ
  currentRadius : ℚ
  speed : ℚ
  intensity : ℚ
  frequency : Band
  maxRadius : ℚ
  decayRate : ℚ
deriving DecidableEq, Repr

/-- `WaveManager.spawnWave` (lines 161–184): the stored intensity is
`Math.min(intensity, 1)`; kinematics are the per-band constants.
`maxRadius` is the manager's current max radius field. -/
def spawnWave (maxRadius : ℚ) (frequency : Band) (intensity : ℚ) (now : ℚ) : Wave :=
  { birthTime := now
    currentRadius := 0
    speed := waveSpeed frequency
    intensity := min intensity 1
    frequency := frequency
    maxRadius := maxRadius * waveMaxRadiusFactor frequency
    decayRate := waveDecayRate frequency }

/-- The per-tick mutation inside `WaveManager.update`'s filter (lines 204–206):
`currentRadius += speed; intensity *= decayRate`. -/
def stepWave (w : Wave) : Wave :=
  { w with currentRadius := w.currentRadius + w.speed,
           intensity := w.intensity * w.decayRate }

/-- The survival test inside `WaveManager.update`'s filter (line 209):
`currentRadius < maxRadius && intensity > 0.01`. -/
def waveAlive (w : Wave) : Bool :=
  decide (w.currentRadius < w.maxRadius) && decide (0.01 < w.intensity)

/-- Generic advance-and-prune step shared by both reactive managers:
`pool.filter(e => { mutate(e); return alive(e) })` is `map` then `filter`. -/
def prunePool {α : Type} (step : α → α) (alive : α → Bool) (pool : List α) : List α :=
  (pool.map step).filter alive

/-- The advance-and-prune pass of `WaveManager.update` (lines 204–210). -/
def updateWavePool (pool : List Wave) : List Wave :=
  prunePool stepWave waveAlive pool

/-- The mutable fields of `WaveManager` (lines 137–153). -/
structure WaveManagerState where
  waves : List Wave
  lastBassSpawn : ℚ
  lastMidSpawn : ℚ
  lastTrebleSpawn : ℚ
  centerX : ℚ
  centerY : ℚ
  maxRadius : ℚ
deriving DecidableEq, Repr

/-- The `WaveManager` constructor: empty pool, all last-spawn stamps 0. -/
def waveManagerInit (centerX centerY maxRadius : ℚ) : WaveManagerState :=
  { waves := [], lastBassSpawn := 0, lastMidSpawn := 0, lastTrebleSpawn := 0
    centerX := centerX, centerY := centerY, maxRadius := maxRadius }

/-- `WaveManager.update` (lines 186–281): prune, compute adjusted levels,
then spawn per band when above threshold and past the cooldown. -/
def waveManagerUpdate (s : WaveManagerState) (audioData : AudioData)
    (sensitivity bassInfluence midInfluence trebleInfluence : ℚ)
    (now : ℚ) : WaveManagerState :=
  let s0 := { s with waves := updateWavePool s.waves }
  let adjustedBassLevel := audioData.bassLevel * bassInfluence * sensitivity
  let adjustedMidLevel := audioData.midLevel * midInfluence * sensitivity
  let adjustedTrebleLevel := audioData.trebleLevel * trebleInfluence * sensitivity
  let s1 :=
    if waveThreshold < adjustedBassLevel ∧ waveCooldown .bass < now - s0.lastBassSpawn then
      { s0 with waves := s0.waves ++ [spawnWave s.maxRadius .bass adjustedBassLevel now]
                lastBassSpawn := now }
    else s0
  let s2 :=
    if waveThreshold < adjustedMidLevel ∧ waveCooldown .mid < now - s1.lastMidSpawn then
      { s1 with waves := s1.waves ++ [spawnWave s.maxRadius .mid adjustedMidLevel now]
                lastMidSpawn := now }
    else s1
  if waveThreshold < adjustedTrebleLevel ∧ waveCooldown .treble < now - s2.lastTrebleSpawn then
    { s2 with waves := s2.waves ++ [spawnWave s.maxRadius .treble adjustedTrebleLevel now]
              lastTrebleSpawn := now }
  else s2

/-- Ripple speed per band (line 338): bass 1.5, mid 3.5, treble 8. -/
def rippleSpeed : Band → ℚ
  | .bass => 1.5
  | .mid => 3.5
  | .treble => 8

/-- Ripple amplitude factor per band (line 340): 35 / 18 / 8. -/
def rippleAmplitudeFactor : Band → ℚ
  | .bass => 35
  | .mid => 18
  | .treble => 8

/-- Ripple `maxRadius` multiplier per band (line 343): 1.8 / 1.2 / 0.7. -/
def rippleMaxRadiusFactor : Band → ℚ
  | .bass => 1.8
  | .mid => 1.2
  | .treble => 0.7

/-- Ripple decay rate per band (line 345): 0.998 / 0.994 / 0.985. -/
def rippleDecayRate : Band → ℚ
  | .bass => 0.998
  | .mid => 0.994
  | .treble => 0.985

/-- Ripple spawn cooldowns in ms (lines 405–419): bass 400, mid 200, treble 50. -/
def rippleCooldown : Band → ℚ
  | .bass => 400
  | .mid => 200
  | .treble => 50

/-- Ripple spawn threshold (lines 397–399): 0.002 for every band. -/
def rippleThreshold : ℚ := 0.002

/-- A `Ripple` emission (interface at lines 126–135, `id` not modelled). -/
structure Ripple where
  birthTime : ℚ
  currentRadius : ℚ
  speed : ℚ
  amplitude : ℚ
  frequency : Band
  maxRadius : ℚ
  decayRate : ℚ
deriving DecidableEq, Repr

/-- `RippleManager.spawnRipple` (lines 332–359): amplitude is
`intensity * (35 | 18 | 8)` — unlike waves, it is NOT clamped to 1. -/
def spawnRipple (maxRadius : ℚ) (frequency : Band) (intensity : ℚ) (now : ℚ) : Ripple :=
  { birthTime := now
    currentRadius := 0
    speed := rippleSpeed frequency
    amplitude := intensity * rippleAmplitudeFactor frequency
    frequency := frequency
    maxRadius := maxRadius * rippleMaxRadiusFactor frequency
    decayRate := rippleDecayRate frequency }

/-- The per-tick mutation inside `RippleManager.update`'s filter (lines 380–381). -/
def stepRipple (r : Ripple) : Ripple :=
  { r with currentRadius := r.currentRadius + r.speed,
           amplitude := r.amplitude * r.decayRate }

/-- The survival test inside `RippleManager.update`'s filter (line 384):
`currentRadius < maxRadius && amplitude > 1`. -/
def rippleAlive (r : Ripple) : Bool :=
  decide (r.currentRadius < r.maxRadius) && decide (1 < r.amplitude)

/-- The advance-and-prune pass of `RippleManager.update` (lines 379–385). -/
def updateRipplePool (pool : List Ripple) : List Ripple :=
  prunePool stepRipple rippleAlive pool

/-- The mutable fields of `RippleManager` (lines 308–324). -/
structure RippleManagerState where
  ripples : List Ripple
  lastBassSpawn : ℚ
  lastMidSpawn : ℚ
  lastTrebleSpawn : ℚ
  centerX : ℚ
  centerY : ℚ
  maxRadius : ℚ
deriving DecidableEq, Repr

/-- The `RippleManager` constructor: empty pool, all last-spawn stamps 0. -/
def rippleManagerInit (centerX centerY maxRadius : ℚ) : RippleManagerState :=
  { ripples := [], lastBassSpawn := 0, lastMidSpawn := 0, lastTrebleSpawn := 0
    centerX := centerX, centerY := centerY, maxRadius := maxRadius }

/-- `RippleManager.update` (lines 361–429): prune, compute adjusted levels,
then spawn per band when above threshold and past the cooldown. -/
def rippleManagerUpdate (s : RippleManagerState) (audioData : AudioData)
    (sensitivity bassInfluence midInfluence trebleInfluence : ℚ)
    (now : ℚ) : RippleManagerState :=
  let s0 := { s with ripples := updateRipplePool s.ripples }
  let adjustedBassLevel := audioData.bassLevel * bassInfluence * sensitivity
  let adjustedMidLevel := audioData.midLevel * midInfluence * sensitivity
  let adjustedTrebleLevel := audioData.trebleLevel * trebleInfluence * sensitivity
  let s1 :=
    if rippleThreshold < adjustedBassLevel ∧ rippleCooldown .bass < now - s0.lastBassSpawn then
      { s0 with ripples := s0.ripples ++ [spawnRipple s.maxRadius .bass adjustedBassLevel now]
                lastBassSpawn := now }
    else s0
  let s2 :=
    if rippleThreshold < adjustedMidLevel ∧ rippleCooldown .mid < now - s1.lastMidSpawn then
      { s1 with ripples := s1.ripples ++ [spawnRipple s.maxRadius .mid adjustedMidLevel now]
                lastMidSpawn := now }
    else s1
  if rippleThreshold < adjustedTrebleLevel ∧ rippleCooldown .treble < now - s2.lastTrebleSpawn then
    { s2 with ripples := s2.ripples ++ [spawnRipple s.maxRadius .treble adjustedTrebleLevel now]
              lastTrebleSpawn := now }
  else s2

/-! ## Loop pulse manager (`LoopPulseManager`, lines 485–713)

Only the time/termination state machine is modelled here (the per-point
multiplier arithmetic does not influence the completion state).  Times are in
milliseconds (`performance.now()`); the code divides by 1000 to seconds. -/

/-- The completion-relevant state of `LoopPulseManager`. -/
structure LoopPulseState where
  startTime : ℚ
  loopDuration : ℚ
  totalCycles : ℚ
  currentCycle : ℤ
  isCompleted : Bool
deriving DecidableEq, Repr

/-- The `LoopPulseManager` constructor / `reset()`: cycle 0, not completed. -/
def loopPulseInit (startTime loopDuration totalCycles : ℚ) : LoopPulseState :=
  { startTime := startTime, loopDuration := loopDuration
    totalCycles := totalCycles, currentCycle := 0, isCompleted := false }

/-- The state transition performed by `getPulseMultiplier` (lines 549–566):
an early return when already completed; otherwise mark completed when
`totalCycles > 0` and `totalElapsed ≥ loopDuration * totalCycles`, else update
`currentCycle = floor(totalElapsed / loopDuration)`. -/
def getPulseMultiplierStep (s : LoopPulseState) (now : ℚ) : LoopPulseState :=
  if s.isCompleted then s
  else
    let totalElapsed := (now - s.startTime) / 1000
    if 0 < s.totalCycles ∧ s.loopDuration * s.totalCycles ≤ totalElapsed then
      { s with isCompleted := true }
    else
      { s with currentCycle := ⌊totalElapsed / s.loopDuration⌋ }

/-- `LoopPulseManager.isAnimationComplete` (lines 700–702). -/
def isAnimationComplete (s : LoopPulseState) : Bool := s.isCompleted

/-- The C4 scenario state: fresh manager started at time 0 with
`loopDuration = 1` second and `totalCycles = 2`. -/
def pulseScenarioInit : LoopPulseState := loopPulseInit 0 1 2

/-! ## Union-Find (`generateSVG`, HalftoneCanvas.tsx lines 1413–1456) -/

/-- The array-backed `UnionFind` helper class. -/
structure UnionFind where
  parent : List ℕ
  rank : List ℕ
deriving DecidableEq, Repr

/-- The constructor (lines 1417–1420): identity parents, zero ranks. -/
def ufInit (size : ℕ) : UnionFind :=
  { parent := List.range size, rank := List.replicate size 0 }

/-- One step of the parent chain (out-of-range indices are their own parent). -/
def parentF (uf : UnionFind) (x : ℕ) : ℕ := uf.parent.getD x x

/-- `find(x)` (lines 1422–1427) returns the root of `x`'s parent chain.  The
source recursion also performs path compression, which rewires `parent`
entries but never changes which root is returned; we model the returned root
by iterating the parent map `|parent|` times, which reaches the chain's fixed
point in every well-formed state (`ufFind_isRoot` below). -/
def ufFind (uf : UnionFind) (x : ℕ) : ℕ := (parentF uf)^[uf.parent.length] x

def rankOf (uf : UnionFind) (x : ℕ) : ℕ := uf.rank.getD x 0

/-- `union(x, y)` by rank (lines 1429–1443).  The source binds
`rootX = find(x)` and `rootY = find(y)`; these appear inline here. -/
def ufUnion (uf : UnionFind) (x y : ℕ) : UnionFind :=
  if ufFind uf x = ufFind uf y then uf
  else if rankOf uf (ufFind uf x) < rankOf uf (ufFind uf y) then
    { uf with parent := uf.parent.set (ufFind uf x) (ufFind uf y) }
  else if rankOf uf (ufFind uf y) < rankOf uf (ufFind uf x) then
    { uf with parent := uf.parent.set (ufFind uf y) (ufFind uf x) }
  else
    { parent := uf.parent.set (ufFind uf y) (ufFind uf x),
      rank := uf.rank.set (ufFind uf x) (rankOf uf (ufFind uf x) + 1) }

/-- Insertion into the root-to-members association list, preserving
first-seen root order (models the `Map` in `getGroups`). -/
def addToGroups (acc : List (ℕ × List ℕ)) (root i : ℕ) : List (ℕ × List ℕ) :=
  if acc.any fun p => p.1 == root then
    acc.map fun p => if p.1 = root then (p.1, p.2 ++ [i]) else p
  else acc ++ [(root, [i])]

/-- `getGroups()` (lines 1445–1455): for each index `i` in order, append `i`
to the group of `find(i)`. -/
def getGroups (uf : UnionFind) : List (ℕ × List ℕ) :=
  (List.range uf.parent.length).foldl (fun acc i => addToGroups acc (ufFind uf i) i) []

/-- Well-formedness of a Union-Find state: the two arrays have equal length,
in-range parents stay in range, and rank strictly increases along non-trivial
parent links (which makes every parent chain acyclic). -/
def UFInv (uf : UnionFind) : Prop :=
  uf.rank.length = uf.parent.length ∧
  (∀ x, x < uf.parent.length → parentF uf x < uf.parent.length) ∧
  (∀ x, parentF uf x ≠ x → rankOf uf x < rankOf uf (parentF uf x))

/-! ## Vector optimizer pipeline (`generateSVG`, lines 1373–1653) -/

/-- A circle record `{x, y, r}` collected by `generateSVG` (line 1390). -/
structure CircleRec where
  x : ℚ
  y : ℚ
  r : ℚ
deriving DecidableEq, Repr

instance : Inhabited CircleRec := ⟨⟨0, 0, 0⟩⟩

/-- The overlap test of the scan (lines 1591–1594):
`Math.sqrt(dx² + dy²) < r1 + r2`.  For a non-negative radius sum this is
equivalent to the squared comparison used here
(`circlesOverlap_iff_dist_lt` below), which keeps the scan computable. -/
def circlesOverlap (c1 c2 : CircleRec) : Bool :=
  decide ((c1.x - c2.x)^2 + (c1.y - c2.y)^2 < (c1.r + c2.r)^2)

/-- The overlap condition exactly as written in the source (line 1594):
`Math.sqrt(dx² + dy²) < r1 + r2`, over the reals. -/
noncomputable def circlesOverlapDist (c1 c2 : CircleRec) : Prop :=
  Real.sqrt (((c1.x : ℝ) - (c2.x : ℝ))^2 + ((c1.y : ℝ) - (c2.y : ℝ))^2) <
    (c1.r : ℝ) + (c2.r : ℝ)

/-- Three collinear unit circles at x = 0, 1.5, 3: the outer two do not
overlap each other but both overlap the middle one. -/
def c2chain : List CircleRec := [⟨0, 0, 1⟩, ⟨1.5, 0, 1⟩, ⟨3, 0, 1⟩]

/-- The pair enumeration of the scan (lines 1587–1588):
`i` ascending, then `j` from `i+1`. -/
def allPairs (n : ℕ) : List (ℕ × ℕ) :=
  (List.range n).flatMap fun i =>
    ((List.range n).filter fun j => decide (i < j)).map fun j => (i, j)

/-- One iteration of the overlap scan: union the pair when it overlaps. -/
def overlapScanStep (cs : List CircleRec) (uf : UnionFind) (p : ℕ × ℕ) : UnionFind :=
  if circlesOverlap (cs.getD p.1 default) (cs.getD p.2 default) then
    ufUnion uf p.1 p.2
  else uf

/-- The Union-Find built by the overlap scan of `generateSVG`
(lines 1584–1598). -/
def buildUF (cs : List CircleRec) : UnionFind :=
  (allPairs cs.length).foldl (overlapScanStep cs) (ufInit cs.length)

/-- A structured SVG path command. -/
inductive PathCmd where
  | move (x y : ℚ)
  | arc (rx ry xrot : ℚ) (largeArc sweep : Bool) (x y : ℚ)
  | close
deriving DecidableEq, Repr

/-- The single-circle branch of `calculateUnionPath` (lines 1516–1520):
`M x-r,y  A r,r 0 1,0 x+r,y  A r,r 0 1,0 x-r,y  Z`. -/
def singleCircleArcPath (c : CircleRec) : List PathCmd :=
  [ .move (c.x - c.r) c.y,
    .arc c.r c.r 0 true false (c.x + c.r) c.y,
    .arc c.r c.r 0 true false (c.x - c.r) c.y,
    .close ]

/-- An element emitted by `generateSVG` per group (lines 1606–1623): a group
of ≥ 2 circles becomes a `<path>` whose data is the polygon union of the
listed member circles (computed by the external martinez library, whose
numeric content is outside this repository and is not modelled further);
a singleton group becomes a native `<circle cx cy r>`. -/
inductive SvgElem where
  | pathEl (groupCircles : List CircleRec)
  | circleEl (cx cy r : ℚ)
deriving DecidableEq, Repr

def isPathEl : SvgElem → Bool
  | .pathEl _ => true
  | .circleEl _ _ _ => false

/-- The per-group emission of `generateSVG` (lines 1606–1623):
`indices.length > 1` emits a path, otherwise the circle
`circleData[indices[0]]` itself. -/
def svgGroupElem (cs : List CircleRec) (group : ℕ × List ℕ) : SvgElem :=
  if 1 < group.2.length then
    .pathEl (group.2.map fun idx => cs.getD idx default)
  else
    let c := cs.getD (group.2.headD 0) default
    .circleEl c.x c.y c.r

/-- The per-group element list of the optimized SVG export. -/
def svgGroupElems (cs : List CircleRec) : List SvgElem :=
  (getGroups (buildUF cs)).map (svgGroupElem cs)

/-! ## C6 scenario: grid, falloff and circular clip

`gridDensity = 36`, `width = height = 600`, `centerX = centerY = 50 (%)`,
`circularRadius = 250`, linear falloff, `minDotSize = 1`, `maxDotSize = 85`,
audio and looping off.  So `spacing = max(1, floor(600/36)) = 16`, the center
is `(300, 300)` and `maxDistance = sqrt(300² + 300²)`. -/

/-- One grid axis: `for (x = spacing/2; x < width; x += spacing)`
(lines 1817, 1392). -/
def gridAxis600 : List ℚ :=
  ((List.range 38).map fun k => 8 + 16 * (k : ℚ)).filter fun q => decide (q < 600)

/-- The grid points, `x` outer and `y` inner as in the source loops. -/
def gridPoints600 : List (ℚ × ℚ) :=
  gridAxis600.flatMap fun x => gridAxis600.map fun y => (x, y)

/-- `Math.sqrt((x−centerX)² + (y−centerY)²)` for the scenario center. -/
noncomputable def scenarioDist (x y : ℚ) : ℝ :=
  Real.sqrt (((x : ℝ) - 300)^2 + ((y : ℝ) - 300)^2)

/-- `maxDistance = Math.sqrt((width/2)² + (height/2)²)` (line 1688). -/
noncomputable def scenarioMaxDistance : ℝ := Real.sqrt (300^2 + 300^2)

/-- The scenario dot size: linear falloff, `minDotSize = 1`,
`maxDotSize = 85` (`falloffIntensity` is unused by the linear branch). -/
noncomputable def scenarioSize (x y : ℚ) : ℝ :=
  calculateDotSize .linear 1 1 85 (scenarioDist x y) scenarioMaxDistance

/-- A dot drawn by the raster renderer (position and diameter). -/
structure RasterDot where
  x : ℚ
  y : ℚ
  size : ℝ

/-- A `circleData` record of `generateSVG` (position and radius). -/
structure SvgCircleRec where
  x : ℚ
  y : ℚ
  r : ℝ

open Classical in
/-- The per-grid-point raster decision of `drawHalftone` (lines 1899–1905):
skip when `distance + dotSize/2 > clipRadius`, draw when `dotSize > 0.1`. -/
noncomputable def rasterStep600 (p : ℚ × ℚ) : Option RasterDot :=
  let distance := scenarioDist p.1 p.2
  let dotSize := scenarioSize p.1 p.2
  if 250 < distance + dotSize / 2 then none
  else if 0.1 < dotSize then some ⟨p.1, p.2, dotSize⟩
  else none

/-- The raster output of `drawHalftone` in the C6 scenario. -/
noncomputable def scenarioRaster : List RasterDot :=
  gridPoints600.filterMap rasterStep600

open Classical in
/-- The per-grid-point decision of `generateSVG` (lines 1394–1409): same clip
test, surviving points are pushed with `r = dotSize/2`. -/
noncomputable def svgStep600 (p : ℚ × ℚ) : Option SvgCircleRec :=
  let distance := scenarioDist p.1 p.2
  let dotSize := scenarioSize p.1 p.2
  if 250 < distance + dotSize / 2 then none
  else if 0.1 < dotSize then some ⟨p.1, p.2, dotSize / 2⟩
  else none

/-- The `circleData` array of `generateSVG` in the C6 scenario. -/
noncomputable def scenarioSvgCircles : List SvgCircleRec :=
  gridPoints600.filterMap svgStep600

/-! ## Offline export pipeline (`startOfflineExport`, lines 2042–2264) -/

/-- `Math.max(1, Math.min(4, Math.floor(params.offlineTemporalSamples || 2)))`
(line 2207).  `none` and `0` model the falsy cases of the `|| 2` default. -/
def offlineSamples (offlineTemporalSamples : Option ℚ) : ℤ :=
  let v : ℚ :=
    match offlineTemporalSamples with
    | none => 2
    | some q => if q = 0 then 2 else q
  max 1 (min 4 ⌊v⌋)

/-- The synthetic render time of sub-sample `s` of frame `i` (line 2212):
`t = (i + (s + 0.5)/samples)/fps`. -/
def sampleTime (i s : ℕ) (samples : ℕ) (fps : ℚ) : ℚ :=
  ((i : ℚ) + ((s : ℚ) + 0.5) / (samples : ℚ)) / fps

/-- One compositing step (lines 2214–2222): sample 0 is copied
(`globalCompositeOperation = 'copy'`), later samples are source-over blends
with `globalAlpha = 1/(s+1)`, i.e. `acc ← (1 − 1/(s+1))·acc + (1/(s+1))·fₛ`
per linear pixel channel. -/
def compositeStep (acc : ℚ) (s : ℕ) (sample : ℚ) : ℚ :=
  if s = 0 then sample
  else (1 - 1 / ((s : ℚ) + 1)) * acc + (1 / ((s : ℚ) + 1)) * sample

/-- The accumulated pixel value after compositing samples `0 .. samples−1`
of one output frame. -/
def compositeFrame (f : ℕ → ℚ) (samples : ℕ) : ℚ :=
  (List.range samples).foldl (fun acc s => compositeStep acc s (f s)) 0

/-- The encoder timestamp of frame `i` (line 2227):
`Math.round(i / fps * 1_000_000)` microseconds. -/
def frameTimestampUs (i : ℕ) (fps : ℚ) : ℤ :=
  round ((i : ℚ) / fps * 1000000)

/-! ## Theorems -/

theorem clamp01_mono {x y : ℝ} (h : x ≤ y) : clamp01 x ≤ clamp01 y :=
  max_le_max le_rfl (min_le_min le_rfl h)

theorem clamp01_nonneg (x : ℝ) : 0 ≤ clamp01 x := le_max_left 0 _

theorem clamp01_le_one (x : ℝ) : clamp01 x ≤ 1 := by
  unfold clamp01
  apply max_le (by norm_num) (min_le_left 1 x)

/-- Monotone comparison of `calculateDotSize` reduces to comparing the raw
curve values, for `minDotSize ≤ maxDotSize`. -/
theorem calculateDotSize_le_of_factor_le (ft : FalloffType)
    (k minD maxD d1 d2 m : ℝ) (hmm : minD ≤ maxD)
    (h : (match ft with
          | .linear => 1 - d2 / m
          | .exponential => Real.exp (-(d2 / m) * k)
          | .inverseSquare => 1 / (1 + d2 / m * k)) ≤
         (match ft with
          | .linear => 1 - d1 / m
          | .exponential => Real.exp (-(d1 / m) * k)
          | .inverseSquare => 1 / (1 + d1 / m * k))) :
    calculateDotSize ft k minD maxD d2 m ≤ calculateDotSize ft k minD maxD d1 m := by
  unfold calculateDotSize
  have := clamp01_mono h
  nlinarith [this, sub_nonneg.2 hmm]

/-- C1: for every `maxDistance > 0` the `linear` curve returns exactly
`maxDotSize` at distance 0 and exactly `minDotSize` at `distance = maxDistance`;
for `exponential` and `inverse-square` with `falloffIntensity ≥ 0` (and
`minDotSize ≤ maxDotSize`) the returned size is monotonically non-increasing
in the distance. -/
theorem C1_falloff (k minD maxD m d1 d2 : ℝ)
    (hm : 0 < m) (hk : 0 ≤ k) (hmm : minD ≤ maxD)
    (hd1 : 0 ≤ d1) (hd12 : d1 ≤ d2) :
    calculateDotSize .linear k minD maxD 0 m = maxD ∧
    calculateDotSize .linear k minD maxD m m = minD ∧
    calculateDotSize .exponential k minD maxD d2 m ≤
      calculateDotSize .exponential k minD maxD d1 m ∧
    calculateDotSize .inverseSquare k minD maxD d2 m ≤
      calculateDotSize .inverseSquare k minD maxD d1 m := by
  have hq : d1 / m ≤ d2 / m := by
    apply div_le_div_of_nonneg_right hd12 hm.le
  have hq1 : 0 ≤ d1 / m := div_nonneg hd1 hm.le
  refine ⟨?_, ?_, ?_, ?_⟩
  · unfold calculateDotSize clamp01
    rw [zero_div]
    norm_num
  · unfold calculateDotSize clamp01
    rw [div_self hm.ne']
    norm_num
  · apply calculateDotSize_le_of_factor_le _ _ _ _ _ _ _ hmm
    simp only
    apply Real.exp_le_exp.2
    nlinarith
  · apply calculateDotSize_le_of_factor_le _ _ _ _ _ _ _ hmm
    simp only
    apply one_div_le_one_div_of_le
    · nlinarith
    · nlinarith

/-- Witness for C1 at `k = 0, minDotSize = 0, maxDotSize = 1, maxDistance = 1,
d1 = 0, d2 = 1`. -/
theorem C1_falloff_witness :
    ((0:ℝ) < 1 ∧ (0:ℝ) ≤ 0 ∧ (0:ℝ) ≤ 1 ∧ (0:ℝ) ≤ 0 ∧ (0:ℝ) ≤ 1) ∧
    (calculateDotSize .linear 0 0 1 0 1 = 1 ∧
     calculateDotSize .linear 0 0 1 1 1 = 0 ∧
     calculateDotSize .exponential 0 0 1 1 1 ≤
       calculateDotSize .exponential 0 0 1 0 1 ∧
     calculateDotSize .inverseSquare 0 0 1 1 1 ≤
       calculateDotSize .inverseSquare 0 0 1 0 1) :=
  ⟨by norm_num,
   C1_falloff 0 0 1 1 0 1 (by norm_num) le_rfl (by norm_num) le_rfl (by norm_num)⟩

/-! ### Union-Find correctness (for C2) -/

theorem parentF_out_of_range (uf : UnionFind) (x : ℕ)
    (h : uf.parent.length ≤ x) : parentF uf x = x :=
  List.getD_eq_default _ _ h

theorem UFInv.parent_lt {uf : UnionFind} (h : UFInv uf) {x : ℕ}
    (hx : x < uf.parent.length) : parentF uf x < uf.parent.length :=
  h.2.1 x hx

theorem UFInv.rank_lt {uf : UnionFind} (h : UFInv uf) {x : ℕ}
    (hx : parentF uf x ≠ x) : rankOf uf x < rankOf uf (parentF uf x) :=
  h.2.2 x hx

theorem iterate_parentF_lt {uf : UnionFind} (h : UFInv uf) {x : ℕ}
    (hx : x < uf.parent.length) (k : ℕ) :
    (parentF uf)^[k] x < uf.parent.length := by
  induction k with
  | zero => simpa using hx
  | succ k ih =>
    rw [Function.iterate_succ_apply']
    exact h.parent_lt ih

/-- Rank strictly increases along an initial segment of the parent chain that
contains no fixed point. -/
theorem rank_strict_of_no_fix {uf : UnionFind} (h : UFInv uf) (x : ℕ) :
    ∀ j : ℕ,
      (∀ m, m < j → parentF uf ((parentF uf)^[m] x) ≠ (parentF uf)^[m] x) →
      ∀ i, i < j →
      rankOf uf ((parentF uf)^[i] x) < rankOf uf ((parentF uf)^[j] x) := by
  intro j
  induction j with
  | zero => intro _ i hi; omega
  | succ j ih =>
    intro hnf i hi
    have hstep : rankOf uf ((parentF uf)^[j] x) <
        rankOf uf ((parentF uf)^[j + 1] x) := by
      rw [Function.iterate_succ_apply']
      exact h.rank_lt (hnf j (Nat.lt_succ_self j))
    rcases Nat.lt_or_ge i j with hij | hij
    · exact lt_trans (ih (fun m hm => hnf m (Nat.lt_succ_of_lt hm)) i hij) hstep
    · have hieq : i = j := by omega
      subst hieq
      exact hstep

/-- Every parent chain reaches a fixed point within `|parent|` steps: the
chain's entries are pairwise distinct while no fixed point has been reached
(their ranks strictly increase), and there are only `|parent|` possible
in-range values. -/
theorem exists_fix_le {uf : UnionFind} (h : UFInv uf) (x : ℕ) :
    ∃ m, m ≤ uf.parent.length ∧
      parentF uf ((parentF uf)^[m] x) = (parentF uf)^[m] x := by
  rcases Nat.lt_or_ge x uf.parent.length with hx | hx
  · by_contra hcon
    push_neg at hcon
    have hmap : ∀ i ∈ Finset.range (uf.parent.length + 1),
        (parentF uf)^[i] x ∈ Finset.range uf.parent.length := by
      intro i _
      simpa using iterate_parentF_lt h hx i
    have hcard : (Finset.range uf.parent.length).card <
        (Finset.range (uf.parent.length + 1)).card := by simp
    obtain ⟨i, hi, j, hj, hij, heq⟩ :=
      Finset.exists_ne_map_eq_of_card_lt_of_maps_to hcard hmap
    simp only [Finset.mem_range] at hi hj
    rcases Nat.lt_or_ge i j with hlt | hge
    · have hrk := rank_strict_of_no_fix h x j
        (fun m hm => hcon m (by omega)) i hlt
      rw [heq] at hrk
      exact lt_irrefl _ hrk
    · have hlt : j < i := by omega
      have hrk := rank_strict_of_no_fix h x i
        (fun m hm => hcon m (by omega)) j hlt
      rw [heq] at hrk
      exact lt_irrefl _ hrk
  · exact ⟨0, Nat.zero_le _, by simpa using parentF_out_of_range uf x hx⟩

theorem iterate_fixed_from {f : ℕ → ℕ} {x r : ℕ} (k m : ℕ)
    (hk : f^[k] x = r) (hr : f r = r) (hm : k ≤ m) : f^[m] x = r := by
  have hsplit : f^[(m - k) + k] x = f^[m - k] (f^[k] x) :=
    Function.iterate_add_apply f (m - k) k x
  rw [Nat.sub_add_cancel hm] at hsplit
  rw [hsplit, hk, Function.iterate_fixed hr]

/-- `ufFind` returns a root in every well-formed state. -/
theorem ufFind_isRoot {uf : UnionFind} (h : UFInv uf) (x : ℕ) :
    parentF uf (ufFind uf x) = ufFind uf x := by
  obtain ⟨m, hm, hfix⟩ := exists_fix_le h x
  have heq : (parentF uf)^[uf.parent.length] x = (parentF uf)^[m] x :=
    iterate_fixed_from m _ rfl hfix hm
  unfold ufFind
  rw [heq]
  exact hfix

/-- If the chain from `x` reaches a root `r` in any number of steps, then
`ufFind` returns `r`. -/
theorem ufFind_eq_of_reaches {uf : UnionFind} (h : UFInv uf) {x r k : ℕ}
    (hk : (parentF uf)^[k] x = r) (hr : parentF uf r = r) :
    ufFind uf x = r := by
  rcases le_or_lt k uf.parent.length with hkn | hkn
  · exact iterate_fixed_from k _ hk hr hkn
  · have hz := ufFind_isRoot h x
    have hfix : (parentF uf)^[k] x = ufFind uf x :=
      iterate_fixed_from uf.parent.length k rfl hz hkn.le
    rw [hk] at hfix
    exact hfix.symm

theorem ufFind_lt {uf : UnionFind} (h : UFInv uf) {x : ℕ}
    (hx : x < uf.parent.length) : ufFind uf x < uf.parent.length :=
  iterate_parentF_lt h hx _

/-- The parent map after `parent[ru] := rv` (stated for arbitrary old and
new rank arrays, since `parentF` ignores ranks). -/
theorem parentF_set (p rkOld rkNew : List ℕ) {ru : ℕ} (rv : ℕ)
    (hru : ru < p.length) (x : ℕ) :
    parentF ⟨p.set ru rv, rkNew⟩ x =
      if x = ru then rv else parentF ⟨p, rkOld⟩ x := by
  unfold parentF
  rcases eq_or_ne x ru with rfl | hne
  · simp [List.getD, List.getElem?_set_self, hru]
  · simp [List.getD, List.getElem?_set_ne (Ne.symm hne), hne]

/-- Re-linking one root `ru` beneath another root `rv` preserves
well-formedness, for any new rank array that is pointwise no smaller, agrees
on non-roots, and ranks `ru` strictly below `rv`. -/
theorem inv_set_root {uf : UnionFind} (h : UFInv uf) {ru rv : ℕ}
    (hrv : parentF uf rv = rv)
    (hruN : ru < uf.parent.length) (hrvN : rv < uf.parent.length)
    (hne : ru ≠ rv) (rk2 : List ℕ)
    (hlen : rk2.length = uf.parent.length)
    (hmono : ∀ x, rankOf uf x ≤ rk2.getD x 0)
    (hpres : ∀ x, parentF uf x ≠ x → rk2.getD x 0 = rankOf uf x)
    (hedge : rk2.getD ru 0 < rk2.getD rv 0) :
    UFInv ⟨uf.parent.set ru rv, rk2⟩ := by
  obtain ⟨p, rk⟩ := uf
  refine ⟨by simpa using hlen, ?_, ?_⟩
  · intro x hx
    rw [parentF_set p rk rk2 rv hruN]
    simp only [List.length_set] at hx ⊢
    split
    · exact hrvN
    · exact h.parent_lt hx
  · intro x hpx
    rw [parentF_set p rk rk2 rv hruN] at hpx ⊢
    show rk2.getD x 0 < rk2.getD _ 0
    rcases eq_or_ne x ru with rfl | hxne
    · rw [if_pos rfl] at hpx ⊢
      exact hedge
    · rw [if_neg hxne] at hpx ⊢
      have hold : rankOf ⟨p, rk⟩ x < rankOf ⟨p, rk⟩ (parentF ⟨p, rk⟩ x) :=
        h.rank_lt hpx
      calc rk2.getD x 0 = rankOf ⟨p, rk⟩ x := hpres x hpx
        _ < rankOf ⟨p, rk⟩ (parentF ⟨p, rk⟩ x) := hold
        _ ≤ rk2.getD (parentF ⟨p, rk⟩ x) 0 := hmono _

/-- After `parent[ru] := rv` (both roots, distinct), every `find` answer that
was `ru` becomes `rv` and all others are unchanged. -/
theorem find_set_root {uf : UnionFind} (h : UFInv uf) {ru rv : ℕ}
    (hru : parentF uf ru = ru) (hrv : parentF uf rv = rv)
    (hruN : ru < uf.parent.length) (hrvN : rv < uf.parent.length)
    (hne : ru ≠ rv) (rk2 : List ℕ)
    (h2 : UFInv ⟨uf.parent.set ru rv, rk2⟩) (x : ℕ) :
    ufFind ⟨uf.parent.set ru rv, rk2⟩ x =
      if ufFind uf x = ru then rv else ufFind uf x := by
  obtain ⟨p, rk⟩ := uf
  have hstep : ∀ y, parentF ⟨p.set ru rv, rk2⟩ y =
      if y = ru then rv else parentF ⟨p, rk⟩ y :=
    parentF_set p rk rk2 rv hruN
  split
  case isTrue hfind =>
    -- the old chain reaches ru; in the new state it continues to rv and stops
    have hreach : ∀ k y, (parentF ⟨p, rk⟩)^[k] y = ru →
        ∃ m, (parentF ⟨p.set ru rv, rk2⟩)^[m] y = rv := by
      intro k
      induction k with
      | zero =>
        intro y hy
        simp only [Function.iterate_zero, id_eq] at hy
        subst hy
        exact ⟨1, by simp [hstep]⟩
      | succ k ih =>
        intro y hy
        rcases eq_or_ne y ru with rfl | hyne
        · exact ⟨1, by simp [hstep]⟩
        · rw [Function.iterate_succ_apply] at hy
          obtain ⟨m, hm⟩ := ih (parentF ⟨p, rk⟩ y) hy
          refine ⟨m + 1, ?_⟩
          rw [Function.iterate_succ_apply, hstep y, if_neg hyne]
          exact hm
    obtain ⟨m, hm⟩ := hreach p.length x hfind
    have hrvfix : parentF ⟨p.set ru rv, rk2⟩ rv = rv := by
      rw [hstep rv, if_neg (Ne.symm hne)]
      exact hrv
    exact ufFind_eq_of_reaches h2 hm hrvfix
  case isFalse hfind =>
    -- the old chain never visits ru, so it is unchanged
    have hnever : ∀ k, (parentF ⟨p, rk⟩)^[k] x ≠ ru := by
      intro k hk
      exact hfind (ufFind_eq_of_reaches h hk hru)
    have hsame : ∀ k, (parentF ⟨p.set ru rv, rk2⟩)^[k] x =
        (parentF ⟨p, rk⟩)^[k] x := by
      intro k
      induction k with
      | zero => rfl
      | succ k ih =>
        rw [Function.iterate_succ_apply', Function.iterate_succ_apply', ih,
          hstep, if_neg (hnever k)]
    show (parentF ⟨p.set ru rv, rk2⟩)^[(p.set ru rv).length] x = _
    rw [List.length_set, hsame]
    rfl

/-- `union` preserves well-formedness and array length, makes its two
arguments share a root, and never separates already-joined elements. -/
theorem ufUnion_spec {uf : UnionFind} (h : UFInv uf) {a b : ℕ}
    (ha : a < uf.parent.length) (hb : b < uf.parent.length) :
    UFInv (ufUnion uf a b) ∧
    (ufUnion uf a b).parent.length = uf.parent.length ∧
    ufFind (ufUnion uf a b) a = ufFind (ufUnion uf a b) b ∧
    (∀ x y, ufFind uf x = ufFind uf y →
      ufFind (ufUnion uf a b) x = ufFind (ufUnion uf a b) y) := by
  have hra := ufFind_isRoot h a
  have hrb := ufFind_isRoot h b
  have hraN := ufFind_lt h ha
  have hrbN := ufFind_lt h hb
  by_cases heq : ufFind uf a = ufFind uf b
  · rw [ufUnion, if_pos heq]
    exact ⟨h, rfl, heq, fun x y hxy => hxy⟩
  · obtain ⟨p, rk⟩ := uf
    rcases lt_trichotomy (rankOf ⟨p, rk⟩ (ufFind ⟨p, rk⟩ a))
      (rankOf ⟨p, rk⟩ (ufFind ⟨p, rk⟩ b)) with hlt | heqr | hgt
    · -- rank rootA < rank rootB: parent[rootA] := rootB
      have hu : ufUnion ⟨p, rk⟩ a b =
          ⟨p.set (ufFind ⟨p, rk⟩ a) (ufFind ⟨p, rk⟩ b), rk⟩ := by
        rw [ufUnion, if_neg heq, if_pos hlt]
      have hinv : UFInv ⟨p.set (ufFind ⟨p, rk⟩ a) (ufFind ⟨p, rk⟩ b), rk⟩ :=
        inv_set_root h hrb hraN hrbN heq rk h.1
          (fun _ => le_rfl) (fun _ _ => rfl) hlt
      have hfind := find_set_root h hra hrb hraN hrbN heq rk hinv
      rw [hu]
      refine ⟨hinv, by simp, ?_, ?_⟩
      · rw [hfind a, hfind b, if_pos rfl, if_neg (Ne.symm heq)]
      · intro x y hxy
        rw [hfind x, hfind y, hxy]
    · -- equal ranks: parent[rootB] := rootA, rank[rootA] += 1
      have hu : ufUnion ⟨p, rk⟩ a b =
          ⟨p.set (ufFind ⟨p, rk⟩ b) (ufFind ⟨p, rk⟩ a),
           rk.set (ufFind ⟨p, rk⟩ a) (rankOf ⟨p, rk⟩ (ufFind ⟨p, rk⟩ a) + 1)⟩ := by
        rw [ufUnion, if_neg heq, if_neg (by omega), if_neg (by omega)]
      have hself : (rk.set (ufFind ⟨p, rk⟩ a)
            (rankOf ⟨p, rk⟩ (ufFind ⟨p, rk⟩ a) + 1)).getD (ufFind ⟨p, rk⟩ a) 0 =
          rankOf ⟨p, rk⟩ (ufFind ⟨p, rk⟩ a) + 1 := by
        have hlt2 : ufFind ⟨p, rk⟩ a < rk.length := by
          rw [h.1]; exact hraN
        simp [List.getD, List.getElem?_set_self, hlt2]
      have hother : ∀ z, z ≠ ufFind ⟨p, rk⟩ a →
          (rk.set (ufFind ⟨p, rk⟩ a)
            (rankOf ⟨p, rk⟩ (ufFind ⟨p, rk⟩ a) + 1)).getD z 0 =
          rankOf ⟨p, rk⟩ z := by
        intro z hz
        simp [rankOf, List.getD, List.getElem?_set_ne (Ne.symm hz)]
      have hinv : UFInv ⟨p.set (ufFind ⟨p, rk⟩ b) (ufFind ⟨p, rk⟩ a),
          rk.set (ufFind ⟨p, rk⟩ a) (rankOf ⟨p, rk⟩ (ufFind ⟨p, rk⟩ a) + 1)⟩ := by
        refine inv_set_root h hra hrbN hraN (Ne.symm heq) _
          (by simp [h.1]) ?_ ?_ ?_
        · intro z
          rcases eq_or_ne z (ufFind ⟨p, rk⟩ a) with rfl | hz
          · rw [hself]; omega
          · rw [hother z hz]
        · intro z hz
          have hzq : z ≠ ufFind ⟨p, rk⟩ a := by
            intro hzz
            subst hzz
            exact hz hra
          exact hother z hzq
        · rw [hother _ (Ne.symm heq), hself]
          omega
      have hfind := find_set_root h hrb hra hrbN hraN (Ne.symm heq) _ hinv
      rw [hu]
      refine ⟨hinv, by simp, ?_, ?_⟩
      · rw [hfind a, hfind b, if_pos rfl, if_neg heq]
      · intro x y hxy
        rw [hfind x, hfind y, hxy]
    · -- rank rootB < rank rootA: parent[rootB] := rootA
      have hu : ufUnion ⟨p, rk⟩ a b =
          ⟨p.set (ufFind ⟨p, rk⟩ b) (ufFind ⟨p, rk⟩ a), rk⟩ := by
        rw [ufUnion, if_neg heq, if_neg (by omega), if_pos hgt]
      have hinv : UFInv ⟨p.set (ufFind ⟨p, rk⟩ b) (ufFind ⟨p, rk⟩ a), rk⟩ :=
        inv_set_root h hra hrbN hraN (Ne.symm heq) rk h.1
          (fun _ => le_rfl) (fun _ _ => rfl) hgt
      have hfind := find_set_root h hrb hra hrbN hraN (Ne.symm heq) rk hinv
      rw [hu]
      refine ⟨hinv, by simp, ?_, ?_⟩
      · rw [hfind a, hfind b, if_pos rfl, if_neg heq]
      · intro x y hxy
        rw [hfind x, hfind y, hxy]

theorem parentF_ufInit (n x : ℕ) : parentF (ufInit n) x = x := by
  unfold parentF ufInit
  rcases Nat.lt_or_ge x n with hx | hx
  · rw [List.getD_eq_getElem _ _ (by simpa using hx)]
    simp
  · rw [List.getD_eq_default _ _ (by simpa using hx)]

theorem ufInit_inv (n : ℕ) : UFInv (ufInit n) := by
  refine ⟨by simp [ufInit], ?_, ?_⟩
  · intro x hx
    rw [parentF_ufInit]
    simpa [ufInit] using hx
  · intro x hx
    exact absurd (parentF_ufInit n x) hx

theorem ufFind_ufInit (n x : ℕ) : ufFind (ufInit n) x = x :=
  Function.iterate_fixed (parentF_ufInit n x) _

theorem mem_allPairs {n : ℕ} {p : ℕ × ℕ} :
    p ∈ allPairs n ↔ p.1 < n ∧ p.2 < n ∧ p.1 < p.2 := by
  obtain ⟨i, j⟩ := p
  simp only [allPairs, List.mem_flatMap, List.mem_map, List.mem_filter,
    List.mem_range, decide_eq_true_eq]
  constructor
  · rintro ⟨a, ha, b, ⟨hb, hab⟩, hpq⟩
    obtain ⟨rfl, rfl⟩ := Prod.mk.injEq .. ▸ hpq
    exact ⟨ha, hb, hab⟩
  · rintro ⟨hi, hj, hij⟩
    exact ⟨i, hi, j, ⟨hj, hij⟩, rfl⟩

theorem scan_foldl_spec (cs : List CircleRec) (l : List (ℕ × ℕ))
    (uf : UnionFind) (h : UFInv uf) (hlen : uf.parent.length = cs.length)
    (hl : ∀ q ∈ l, q.1 < cs.length ∧ q.2 < cs.length) :
    UFInv (l.foldl (overlapScanStep cs) uf) ∧
    (l.foldl (overlapScanStep cs) uf).parent.length = cs.length ∧
    (∀ x y, ufFind uf x = ufFind uf y →
      ufFind (l.foldl (overlapScanStep cs) uf) x =
        ufFind (l.foldl (overlapScanStep cs) uf) y) := by
  induction l generalizing uf with
  | nil => exact ⟨h, hlen, fun x y hxy => hxy⟩
  | cons q t ih =>
    simp only [List.foldl_cons]
    have hq := hl q (by simp)
    have hstep : UFInv (overlapScanStep cs uf q) ∧
        (overlapScanStep cs uf q).parent.length = cs.length ∧
        (∀ x y, ufFind uf x = ufFind uf y →
          ufFind (overlapScanStep cs uf q) x = ufFind (overlapScanStep cs uf q) y) := by
      unfold overlapScanStep
      split
      · have hspec := ufUnion_spec h (hlen ▸ hq.1) (hlen ▸ hq.2)
        exact ⟨hspec.1, hspec.2.1.trans hlen, hspec.2.2.2⟩
      · exact ⟨h, hlen, fun x y hxy => hxy⟩
    obtain ⟨ih1, ih2, ih3⟩ := ih (overlapScanStep cs uf q) hstep.1 hstep.2.1
      (fun r hr => hl r (by simp [hr]))
    exact ⟨ih1, ih2, fun x y hxy => ih3 x y (hstep.2.2 x y hxy)⟩

/-- The computable squared overlap test agrees with the source's
`Math.sqrt(dx² + dy²) < r1 + r2` whenever the radius sum is non-negative. -/
theorem circlesOverlap_iff (c1 c2 : CircleRec) (h : (0:ℚ) ≤ c1.r + c2.r) :
    circlesOverlap c1 c2 = true ↔ circlesOverlapDist c1 c2 := by
  unfold circlesOverlap circlesOverlapDist
  rw [decide_eq_true_eq]
  rcases eq_or_lt_of_le h with heq | hpos
  · constructor
    · intro hlt
      exfalso
      nlinarith [sq_nonneg (c1.x - c2.x), sq_nonneg (c1.y - c2.y)]
    · intro hlt
      exfalso
      have h0 : (c1.r : ℝ) + (c2.r : ℝ) = 0 := by exact_mod_cast heq.symm
      have hnn := Real.sqrt_nonneg (((c1.x : ℝ) - (c2.x : ℝ))^2 +
        ((c1.y : ℝ) - (c2.y : ℝ))^2)
      linarith
  · have hpos' : (0:ℝ) < (c1.r : ℝ) + (c2.r : ℝ) := by exact_mod_cast hpos
    rw [Real.sqrt_lt' hpos']
    constructor
    · intro hh
      exact_mod_cast hh
    · intro hh
      exact_mod_cast hh

/-- C2 (amended): a pair of scanned circles whose center distance is strictly
below the sum of their radii always ends up with the same Union-Find root;
and the scan never unions a non-overlapping pair directly (non-overlapping
circles can still share a root via a chain of overlaps, see the
counterexample). -/
theorem C2_grouping (cs : List CircleRec) (i j : ℕ) :
    ((i, j) ∈ allPairs cs.length →
      circlesOverlapDist (cs.getD i default) (cs.getD j default) →
      ufFind (buildUF cs) i = ufFind (buildUF cs) j) ∧
    (∀ uf : UnionFind, (0:ℚ) ≤ (cs.getD i default).r + (cs.getD j default).r →
      ¬circlesOverlapDist (cs.getD i default) (cs.getD j default) →
      overlapScanStep cs uf (i, j) = uf) := by
  constructor
  · intro hmem hov
    have hb := mem_allPairs.1 hmem
    have hrpos : (0:ℚ) ≤ (cs.getD i default).r + (cs.getD j default).r := by
      by_contra hneg
      push_neg at hneg
      have hcast : ((cs.getD i default).r : ℝ) + ((cs.getD j default).r : ℝ) < 0 := by
        exact_mod_cast hneg
      have hnn := Real.sqrt_nonneg ((((cs.getD i default).x : ℝ) -
        ((cs.getD j default).x : ℝ))^2 + (((cs.getD i default).y : ℝ) -
        ((cs.getD j default).y : ℝ))^2)
      unfold circlesOverlapDist at hov
      linarith
    have hovB : circlesOverlap (cs.getD i default) (cs.getD j default) = true :=
      (circlesOverlap_iff _ _ hrpos).2 hov
    obtain ⟨l1, l2, hsplit⟩ := List.append_of_mem hmem
    unfold buildUF
    rw [hsplit, List.foldl_append, List.foldl_cons]
    have hmemsub : ∀ q ∈ l1, q.1 < cs.length ∧ q.2 < cs.length := by
      intro q hq
      have hq2 : q ∈ allPairs cs.length := by
        rw [hsplit]; exact List.mem_append_left _ hq
      have hb2 := mem_allPairs.1 hq2
      exact ⟨hb2.1, hb2.2.1⟩
    have h1 := scan_foldl_spec cs l1 (ufInit cs.length) (ufInit_inv _)
      (by simp [ufInit]) hmemsub
    have hstep : overlapScanStep cs (l1.foldl (overlapScanStep cs) (ufInit cs.length)) (i, j) =
        ufUnion (l1.foldl (overlapScanStep cs) (ufInit cs.length)) i j := by
      show (if circlesOverlap (cs.getD i default) (cs.getD j default) = true
        then ufUnion (l1.foldl (overlapScanStep cs) (ufInit cs.length)) i j
        else l1.foldl (overlapScanStep cs) (ufInit cs.length)) = _
      rw [if_pos hovB]
    rw [hstep]
    have hu := ufUnion_spec h1.1 (h1.2.1 ▸ hb.1) (h1.2.1 ▸ hb.2.1)
    have hmemsub2 : ∀ q ∈ l2, q.1 < cs.length ∧ q.2 < cs.length := by
      intro q hq
      have hq2 : q ∈ allPairs cs.length := by
        rw [hsplit]
        exact List.mem_append_right _ (List.mem_cons_of_mem _ hq)
      have hb2 := mem_allPairs.1 hq2
      exact ⟨hb2.1, hb2.2.1⟩
    have h2 := scan_foldl_spec cs l2 _ hu.1 (hu.2.1.trans h1.2.1) hmemsub2
    exact h2.2.2 i j hu.2.2.1
  · intro uf hr hnov
    have hovF : circlesOverlap (cs.getD i default) (cs.getD j default) = false := by
      cases hB : circlesOverlap (cs.getD i default) (cs.getD j default) with
      | false => rfl
      | true => exact absurd ((circlesOverlap_iff _ _ hr).1 hB) hnov
    show (if circlesOverlap (cs.getD i default) (cs.getD j default) = true
      then ufUnion uf i j else uf) = uf
    have hne : ¬(circlesOverlap (cs.getD i default) (cs.getD j default) = true) := by
      rw [hovF]
      exact Bool.false_ne_true
    rw [if_neg hne]

/-- Counterexample to C2 as stated: in the chain of three unit circles at
x = 0, 1.5, 3, the two outer circles have center distance 3 ≥ 1 + 1 = 2
(so they do not overlap), yet the scan places them in the same group
(through the middle circle). -/
theorem C2_grouping_counterexample :
    ¬circlesOverlapDist ⟨0, 0, 1⟩ ⟨3, 0, 1⟩ ∧
    c2chain.getD 0 default = ⟨0, 0, 1⟩ ∧
    c2chain.getD 2 default = ⟨3, 0, 1⟩ ∧
    ufFind (buildUF c2chain) 0 = ufFind (buildUF c2chain) 2 := by
  have h9 : Real.sqrt 9 = 3 := by
    rw [show (9:ℝ) = 3^2 by norm_num, Real.sqrt_sq (by norm_num : (0:ℝ) ≤ 3)]
  refine ⟨by norm_num [circlesOverlapDist, h9], by norm_num [c2chain],
    by norm_num [c2chain], ?_⟩
  have h01 : circlesOverlap (c2chain.getD 0 default) (c2chain.getD 1 default) = true := by
    norm_num [circlesOverlap, c2chain]
  have h02 : circlesOverlap (c2chain.getD 0 default) (c2chain.getD 2 default) = false := by
    norm_num [circlesOverlap, c2chain]
  have h12 : circlesOverlap (c2chain.getD 1 default) (c2chain.getD 2 default) = true := by
    norm_num [circlesOverlap, c2chain]
  have hpairs : allPairs c2chain.length = [(0, 1), (0, 2), (1, 2)] := by decide
  unfold buildUF
  rw [hpairs]
  simp only [List.foldl_cons, List.foldl_nil, overlapScanStep, h01, h02, h12,
    if_true, if_false]
  decide

/-- Witness for C2: the overlapping pair `(⟨0,0,1⟩, ⟨1,0,1⟩)` is grouped
together; the scan step is the identity on the non-overlapping pair
`(⟨0,0,1⟩, ⟨5,0,1⟩)`. -/
theorem C2_grouping_witness :
    ((0, 1) ∈ allPairs ([(⟨0, 0, 1⟩ : CircleRec), ⟨1, 0, 1⟩].length) ∧
     circlesOverlapDist ⟨0, 0, 1⟩ ⟨1, 0, 1⟩ ∧
     ufFind (buildUF [⟨0, 0, 1⟩, ⟨1, 0, 1⟩]) 0 =
       ufFind (buildUF [⟨0, 0, 1⟩, ⟨1, 0, 1⟩]) 1) ∧
    ((0:ℚ) ≤ ([(⟨0, 0, 1⟩ : CircleRec), ⟨5, 0, 1⟩].getD 0 default).r +
       ([(⟨0, 0, 1⟩ : CircleRec), ⟨5, 0, 1⟩].getD 1 default).r ∧
     ¬circlesOverlapDist ⟨0, 0, 1⟩ ⟨5, 0, 1⟩ ∧
     overlapScanStep [⟨0, 0, 1⟩, ⟨5, 0, 1⟩] (ufInit 2) (0, 1) = ufInit 2) := by
  have h25 : Real.sqrt 25 = 5 := by
    rw [show (25:ℝ) = 5^2 by norm_num, Real.sqrt_sq (by norm_num : (0:ℝ) ≤ 5)]
  have hov : circlesOverlapDist ⟨0, 0, 1⟩ ⟨1, 0, 1⟩ := by
    norm_num [circlesOverlapDist, Real.sqrt_one]
  have hnov : ¬circlesOverlapDist ⟨0, 0, 1⟩ ⟨5, 0, 1⟩ := by
    norm_num [circlesOverlapDist, h25]
  refine ⟨⟨by decide, hov, ?_⟩, ⟨by norm_num, hnov, ?_⟩⟩
  · exact (C2_grouping [⟨0, 0, 1⟩, ⟨1, 0, 1⟩] 0 1).1 (by decide) hov
  · exact (C2_grouping [⟨0, 0, 1⟩, ⟨5, 0, 1⟩] 0 1).2 (ufInit 2) (by norm_num) hnov

/-! ### Emission lifecycle (C3) -/

/-- Membership in the `k`-times advanced-and-pruned pool is exactly: the
element is the `k`-step trajectory of an original pool member whose survival
test held after every one of the `k` updates.  In particular an emission is
removed at the first update after which the test fails and can never
reappear. -/
theorem mem_prunePool_iterate {α : Type} (step : α → α) (alive : α → Bool)
    (pool : List α) (k : ℕ) (x : α) :
    x ∈ (prunePool step alive)^[k] pool ↔
      ∃ e ∈ pool, x = step^[k] e ∧
        ∀ j, 1 ≤ j → j ≤ k → alive (step^[j] e) = true := by
  induction k generalizing pool with
  | zero =>
    simp only [Function.iterate_zero, id_eq]
    constructor
    · intro hx
      exact ⟨x, hx, rfl, fun j h1 h0 => by omega⟩
    · rintro ⟨e, he, rfl, -⟩
      exact he
  | succ k ih =>
    rw [Function.iterate_succ_apply, ih (prunePool step alive pool)]
    constructor
    · rintro ⟨e1, he1, hx, hcond⟩
      obtain ⟨e, he, rfl, halive⟩ :
          ∃ e ∈ pool, e1 = step e ∧ alive (step e) = true := by
        unfold prunePool at he1
        simp only [List.mem_filter, List.mem_map] at he1
        obtain ⟨⟨e, he, rfl⟩, hal⟩ := he1
        exact ⟨e, he, rfl, hal⟩
      refine ⟨e, he, ?_, ?_⟩
      · rw [hx, ← Function.iterate_succ_apply]
      · intro j h1 hk
        cases j with
        | zero => omega
        | succ j2 =>
          rw [Function.iterate_succ_apply]
          rcases Nat.eq_zero_or_pos j2 with rfl | hj2
          · simpa using halive
          · exact hcond j2 (by omega) (by omega)
    · rintro ⟨e, he, rfl, hcond⟩
      have halive : alive (step e) = true := by
        simpa using hcond 1 le_rfl (by omega)
      refine ⟨step e, ?_, Function.iterate_succ_apply step k e, ?_⟩
      · unfold prunePool
        simp only [List.mem_filter, List.mem_map]
        exact ⟨⟨e, he, rfl⟩, halive⟩
      · intro j h1 hk
        rw [← Function.iterate_succ_apply]
        exact hcond (j + 1) (by omega) (by omega)

/-- C3: along consecutive `update` calls a Wave/Ripple emission's intensity
(resp. amplitude) is non-increasing — strictly while positive, since every
decay rate is `< 1` — its radius is non-decreasing, and the emission stays in
the pool exactly until the first update after which
`radius ≥ maxRadius OR intensity at or below the floor` (0.01 for waves,
1 for ripples) holds; it never reappears afterwards. -/
theorem C3_emission_lifecycle :
    (∀ w : Wave, 0 ≤ w.intensity → w.decayRate ≤ 1 →
      (stepWave w).intensity ≤ w.intensity) ∧
    (∀ w : Wave, 0 < w.intensity → w.decayRate < 1 →
      (stepWave w).intensity < w.intensity) ∧
    (∀ w : Wave, 0 ≤ w.speed → w.currentRadius ≤ (stepWave w).currentRadius) ∧
    (∀ w : Wave, waveAlive w = false ↔
      w.maxRadius ≤ w.currentRadius ∨ w.intensity ≤ 0.01) ∧
    (∀ (pool : List Wave) (k : ℕ) (x : Wave),
      x ∈ (updateWavePool)^[k] pool ↔
        ∃ w ∈ pool, x = stepWave^[k] w ∧
          ∀ j, 1 ≤ j → j ≤ k → waveAlive (stepWave^[j] w) = true) ∧
    (∀ r : Ripple, 0 ≤ r.amplitude → r.decayRate ≤ 1 →
      (stepRipple r).amplitude ≤ r.amplitude) ∧
    (∀ r : Ripple, 0 < r.amplitude → r.decayRate < 1 →
      (stepRipple r).amplitude < r.amplitude) ∧
    (∀ r : Ripple, 0 ≤ r.speed → r.currentRadius ≤ (stepRipple r).currentRadius) ∧
    (∀ r : Ripple, rippleAlive r = false ↔
      r.maxRadius ≤ r.currentRadius ∨ r.amplitude ≤ 1) ∧
    (∀ (pool : List Ripple) (k : ℕ) (x : Ripple),
      x ∈ (updateRipplePool)^[k] pool ↔
        ∃ r ∈ pool, x = stepRipple^[k] r ∧
          ∀ j, 1 ≤ j → j ≤ k → rippleAlive (stepRipple^[j] r) = true) := by
  refine ⟨?_, ?_, ?_, ?_, ?_, ?_, ?_, ?_, ?_, ?_⟩
  · intro w h0 h1
    exact mul_le_of_le_one_right h0 h1
  · intro w h0 h1
    exact mul_lt_of_lt_one_right h0 h1
  · intro w hsp
    exact le_add_of_nonneg_right hsp
  · intro w
    unfold waveAlive
    rcases le_or_lt w.maxRadius w.currentRadius with h | h <;>
      rcases le_or_lt w.intensity 0.01 with h2 | h2 <;>
      simp [not_lt.2, h, h2, not_lt.1]
  · intro pool k x
    exact mem_prunePool_iterate stepWave waveAlive pool k x
  · intro r h0 h1
    exact mul_le_of_le_one_right h0 h1
  · intro r h0 h1
    exact mul_lt_of_lt_one_right h0 h1
  · intro r hsp
    exact le_add_of_nonneg_right hsp
  · intro r
    unfold rippleAlive
    rcases le_or_lt r.maxRadius r.currentRadius with h | h <;>
      rcases le_or_lt r.amplitude 1 with h2 | h2 <;>
      simp [not_lt.2, h, h2, not_lt.1]
  · intro pool k x
    exact mem_prunePool_iterate stepRipple rippleAlive pool k x

/-- Witness for C3 at a concrete bass wave with intensity 1/2. -/
theorem C3_emission_lifecycle_witness :
    0 < (⟨0, 0, 1, 1/2, Band.bass, 10, 0.998⟩ : Wave).intensity ∧
    (⟨0, 0, 1, 1/2, Band.bass, 10, 0.998⟩ : Wave).decayRate < 1 ∧
    (stepWave ⟨0, 0, 1, 1/2, Band.bass, 10, 0.998⟩).intensity <
      (⟨0, 0, 1, 1/2, Band.bass, 10, 0.998⟩ : Wave).intensity :=
  ⟨by norm_num, by norm_num,
   C3_emission_lifecycle.2.1 _ (by norm_num) (by norm_num)⟩

/-! ### Loop pulse termination (C4) -/

/-- A non-completing `getPulseMultiplier` evaluation leaves the timing
parameters untouched. -/
theorem getPulseMultiplierStep_fields (s : LoopPulseState) (now : ℚ) :
    (getPulseMultiplierStep s now).startTime = s.startTime ∧
    (getPulseMultiplierStep s now).loopDuration = s.loopDuration ∧
    (getPulseMultiplierStep s now).totalCycles = s.totalCycles := by
  simp only [getPulseMultiplierStep]
  split
  · exact ⟨rfl, rfl, rfl⟩
  · split
    · exact ⟨rfl, rfl, rfl⟩
    · exact ⟨rfl, rfl, rfl⟩

/-- C4: a `getPulseMultiplier` evaluation from a non-completed state marks the
animation terminal exactly when `totalCycles > 0` and
`elapsed ≥ loopDuration · totalCycles`; with `totalCycles < 0` no sequence of
evaluations ever completes it; and in the scenario
`totalCycles = 2, loopDuration = 1 s`, `isAnimationComplete()` is false after
evaluating at t = 1.9 s and true after further evaluating at any t ≥ 2.0 s. -/
theorem C4_loop_pulse_terminal :
    (∀ (s : LoopPulseState) (now : ℚ), s.isCompleted = false →
      ((getPulseMultiplierStep s now).isCompleted = true ↔
        0 < s.totalCycles ∧
          s.loopDuration * s.totalCycles ≤ (now - s.startTime) / 1000)) ∧
    (∀ (s : LoopPulseState) (times : List ℚ), s.totalCycles < 0 →
      (times.foldl getPulseMultiplierStep s).isCompleted = s.isCompleted) ∧
    (isAnimationComplete (getPulseMultiplierStep pulseScenarioInit 1900) = false ∧
     ∀ t : ℚ, 2000 ≤ t →
       isAnimationComplete
         (getPulseMultiplierStep
           (getPulseMultiplierStep pulseScenarioInit 1900) t) = true) := by
  have hstep : ∀ (s : LoopPulseState) (now : ℚ), s.isCompleted = false →
      ((getPulseMultiplierStep s now).isCompleted = true ↔
        0 < s.totalCycles ∧
          s.loopDuration * s.totalCycles ≤ (now - s.startTime) / 1000) := by
    intro s now h
    simp only [getPulseMultiplierStep]
    rw [if_neg (by rw [h]; exact Bool.false_ne_true)]
    by_cases hc : 0 < s.totalCycles ∧
        s.loopDuration * s.totalCycles ≤ (now - s.startTime) / 1000
    · rw [if_pos hc]
      simpa using hc
    · rw [if_neg hc]
      simp [h, hc]
  have hfields := getPulseMultiplierStep_fields
  refine ⟨hstep, ?_, ?_, ?_⟩
  · intro s times hneg
    induction times generalizing s with
    | nil => rfl
    | cons t rest ih =>
      have hone : (getPulseMultiplierStep s t).isCompleted = s.isCompleted ∧
          (getPulseMultiplierStep s t).totalCycles = s.totalCycles := by
        simp only [getPulseMultiplierStep]
        by_cases h1 : s.isCompleted = true
        · rw [if_pos h1]
          exact ⟨rfl, rfl⟩
        · rw [if_neg h1]
          rw [if_neg (by
            rintro ⟨hpos, -⟩
            exact absurd hneg (by linarith))]
          exact ⟨rfl, rfl⟩
      rw [List.foldl_cons, ih _ (hone.2 ▸ hneg), hone.1]
  · have h19 := hstep pulseScenarioInit 1900 rfl
    have : ¬(0 < pulseScenarioInit.totalCycles ∧
        pulseScenarioInit.loopDuration * pulseScenarioInit.totalCycles ≤
          ((1900:ℚ) - pulseScenarioInit.startTime) / 1000) := by
      rintro ⟨-, habs⟩
      rw [show pulseScenarioInit.loopDuration = 1 from rfl,
        show pulseScenarioInit.totalCycles = 2 from rfl,
        show pulseScenarioInit.startTime = 0 from rfl] at habs
      norm_num at habs
    rcases Bool.eq_false_or_eq_true
      ((getPulseMultiplierStep pulseScenarioInit 1900).isCompleted) with hT | hF
    · exact absurd (h19.1 hT) this
    · exact hF
  · intro t ht
    have h19F : (getPulseMultiplierStep pulseScenarioInit 1900).isCompleted = false := by
      have h19 := hstep pulseScenarioInit 1900 rfl
      rcases Bool.eq_false_or_eq_true
        ((getPulseMultiplierStep pulseScenarioInit 1900).isCompleted) with hT | hF
      swap
      · exact hF
      · exfalso
        have := h19.1 hT
        rw [show pulseScenarioInit.loopDuration = 1 from rfl,
          show pulseScenarioInit.totalCycles = 2 from rfl,
          show pulseScenarioInit.startTime = 0 from rfl] at this
        norm_num at this
    have hf := hfields pulseScenarioInit 1900
    apply (hstep _ t h19F).2
    rw [hf.1, hf.2.1, hf.2.2]
    rw [show pulseScenarioInit.loopDuration = 1 from rfl,
      show pulseScenarioInit.totalCycles = 2 from rfl,
      show pulseScenarioInit.startTime = 0 from rfl]
    constructor
    · norm_num
    · rw [sub_zero, le_div_iff₀ (by norm_num : (0:ℚ) < 1000)]
      linarith

/-- Witness for C4: evaluation at t = 2.5 s from the fresh scenario state, and
the scenario completion at exactly t = 2.0 s. -/
theorem C4_loop_pulse_terminal_witness :
    (pulseScenarioInit.isCompleted = false ∧
     ((getPulseMultiplierStep pulseScenarioInit 2500).isCompleted = true ↔
       0 < pulseScenarioInit.totalCycles ∧
       pulseScenarioInit.loopDuration * pulseScenarioInit.totalCycles ≤
         ((2500:ℚ) - pulseScenarioInit.startTime) / 1000)) ∧
    ((2000:ℚ) ≤ 2000 ∧
     isAnimationComplete
       (getPulseMultiplierStep
         (getPulseMultiplierStep pulseScenarioInit 1900) 2000) = true) :=
  ⟨⟨rfl, C4_loop_pulse_terminal.1 _ 2500 rfl⟩,
   ⟨le_rfl, C4_loop_pulse_terminal.2.2.2 2000 le_rfl⟩⟩

/-! ### Ripple spawn cooldown scenario (C5) -/

/-- C5: a fresh `RippleManager` (here with center (0,0) and max radius 250)
fed `bassLevel = 0.5, bassInfluence = 1, sensitivity = 1` spawns exactly one
bass ripple on the first update, none on an update 300 ms later (the 400 ms
bass cooldown has not elapsed), and a second bass ripple 450 ms after the
first.  `T0` is the clock value of the first call; since `lastBassSpawn`
starts at 0 and `Date.now()` is far larger than the cooldown, `T0 > 400`. -/
theorem C5_ripple_cooldown (T0 : ℚ) (hT0 : 400 < T0) :
    ((rippleManagerUpdate (rippleManagerInit 0 0 250) ⟨1/2, 0, 0, 0⟩ 1 1 1 1
        T0).ripples.map Ripple.frequency = [.bass]) ∧
    ((rippleManagerUpdate (rippleManagerUpdate (rippleManagerInit 0 0 250)
        ⟨1/2, 0, 0, 0⟩ 1 1 1 1 T0) ⟨1/2, 0, 0, 0⟩ 1 1 1 1
        (T0 + 300)).ripples.map Ripple.frequency = [.bass]) ∧
    ((rippleManagerUpdate (rippleManagerUpdate (rippleManagerUpdate
        (rippleManagerInit 0 0 250) ⟨1/2, 0, 0, 0⟩ 1 1 1 1 T0)
        ⟨1/2, 0, 0, 0⟩ 1 1 1 1 (T0 + 300)) ⟨1/2, 0, 0, 0⟩ 1 1 1 1
        (T0 + 450)).ripples.map Ripple.frequency = [.bass, .bass]) := by
  have h1 : rippleManagerUpdate (rippleManagerInit 0 0 250) ⟨1/2, 0, 0, 0⟩
      1 1 1 1 T0 =
      { ripples := [⟨T0, 0, 3/2, 35/2, .bass, 450, 499/500⟩],
        lastBassSpawn := T0, lastMidSpawn := 0, lastTrebleSpawn := 0,
        centerX := 0, centerY := 0, maxRadius := 250 } := by
    norm_num [rippleManagerUpdate, rippleManagerInit, updateRipplePool,
      prunePool, rippleThreshold, rippleCooldown, spawnRipple, rippleSpeed,
      rippleAmplitudeFactor, rippleMaxRadiusFactor, rippleDecayRate, hT0]
  have h2 : rippleManagerUpdate (rippleManagerUpdate (rippleManagerInit 0 0 250)
      ⟨1/2, 0, 0, 0⟩ 1 1 1 1 T0) ⟨1/2, 0, 0, 0⟩ 1 1 1 1 (T0 + 300) =
      { ripples := [⟨T0, 3/2, 3/2, 3493/200, .bass, 450, 499/500⟩],
        lastBassSpawn := T0, lastMidSpawn := 0, lastTrebleSpawn := 0,
        centerX := 0, centerY := 0, maxRadius := 250 } := by
    rw [h1]
    norm_num [rippleManagerUpdate, updateRipplePool, prunePool, stepRipple,
      rippleAlive, rippleThreshold, rippleCooldown, spawnRipple, rippleSpeed,
      rippleAmplitudeFactor, rippleMaxRadiusFactor, rippleDecayRate]
  have h3 : rippleManagerUpdate (rippleManagerUpdate (rippleManagerUpdate
      (rippleManagerInit 0 0 250) ⟨1/2, 0, 0, 0⟩ 1 1 1 1 T0)
      ⟨1/2, 0, 0, 0⟩ 1 1 1 1 (T0 + 300)) ⟨1/2, 0, 0, 0⟩ 1 1 1 1 (T0 + 450) =
      { ripples := [⟨T0, 3, 3/2, 1743007/100000, .bass, 450, 499/500⟩,
                    ⟨T0 + 450, 0, 3/2, 35/2, .bass, 450, 499/500⟩],
        lastBassSpawn := T0 + 450, lastMidSpawn := 0, lastTrebleSpawn := 0,
        centerX := 0, centerY := 0, maxRadius := 250 } := by
    rw [h2]
    norm_num [rippleManagerUpdate, updateRipplePool, prunePool, stepRipple,
      rippleAlive, rippleThreshold, rippleCooldown, spawnRipple, rippleSpeed,
      rippleAmplitudeFactor, rippleMaxRadiusFactor, rippleDecayRate]
  rw [h3, h2, h1]
  exact ⟨rfl, rfl, rfl⟩

/-- Witness for C5 at `T0 = 1000` ms. -/
theorem C5_ripple_cooldown_witness :
    (400:ℚ) < 1000 ∧
    ((rippleManagerUpdate (rippleManagerInit 0 0 250) ⟨1/2, 0, 0, 0⟩ 1 1 1 1
        1000).ripples.map Ripple.frequency = [.bass]) ∧
    ((rippleManagerUpdate (rippleManagerUpdate (rippleManagerUpdate
        (rippleManagerInit 0 0 250) ⟨1/2, 0, 0, 0⟩ 1 1 1 1 1000)
        ⟨1/2, 0, 0, 0⟩ 1 1 1 1 (1000 + 300)) ⟨1/2, 0, 0, 0⟩ 1 1 1 1
        (1000 + 450)).ripples.map Ripple.frequency = [.bass, .bass]) :=
  ⟨by norm_num, (C5_ripple_cooldown 1000 (by norm_num)).1,
   (C5_ripple_cooldown 1000 (by norm_num)).2.2⟩

/-! ### Grid scenario with circular clip (C6) -/

/-- The computed size never drops below `minDotSize` (when
`minDotSize ≤ maxDotSize`). -/
theorem le_calculateDotSize (ft : FalloffType) (k minD maxD d m : ℝ)
    (h : minD ≤ maxD) : minD ≤ calculateDotSize ft k minD maxD d m := by
  have key : ∀ t : ℝ, minD ≤ minD + (maxD - minD) * clamp01 t := by
    intro t
    have hmul := mul_nonneg (sub_nonneg.mpr h) (clamp01_nonneg t)
    linarith
  cases ft <;> exact key _

/-- C6: with `gridDensity = 36`, `width = height = 600`,
`centerX = centerY = 50 %`, `circularRadius = 250`, linear falloff,
`minDotSize = 1`, `maxDotSize = 85`: the falloff size at the exact center is
85, and any grid position whose distance from center plus half its computed
diameter exceeds 250 contributes no dot to the raster output and no circle
record to the SVG output. -/
theorem C6_center_and_clip :
    calculateDotSize .linear 1 1 85 0 scenarioMaxDistance = 85 ∧
    (∀ x y : ℚ, 250 < scenarioDist x y + scenarioSize x y / 2 →
      (∀ d ∈ scenarioRaster, ¬(d.x = x ∧ d.y = y)) ∧
      (∀ c ∈ scenarioSvgCircles, ¬(c.x = x ∧ c.y = y))) := by
  constructor
  · simp only [calculateDotSize, clamp01]
    rw [zero_div]
    norm_num
  · intro x y h
    constructor
    · intro d hd hxy
      simp only [scenarioRaster, List.mem_filterMap] at hd
      obtain ⟨p, hp, hstep⟩ := hd
      simp only [rasterStep600] at hstep
      split at hstep
      · exact Option.noConfusion hstep
      case isFalse hclip =>
        split at hstep
        · have hd2 := Option.some.inj hstep
          rw [← hd2] at hxy
          obtain ⟨hx, hy⟩ := hxy
          simp only at hx hy
          rw [hx, hy] at hclip
          exact hclip h
        · exact Option.noConfusion hstep
    · intro c hc hxy
      simp only [scenarioSvgCircles, List.mem_filterMap] at hc
      obtain ⟨p, hp, hstep⟩ := hc
      simp only [svgStep600] at hstep
      split at hstep
      · exact Option.noConfusion hstep
      case isFalse hclip =>
        split at hstep
        · have hc2 := Option.some.inj hstep
          rw [← hc2] at hxy
          obtain ⟨hx, hy⟩ := hxy
          simp only at hx hy
          rw [hx, hy] at hclip
          exact hclip h
        · exact Option.noConfusion hstep

/-- Witness for C6: the corner grid point (8, 8) lies at distance
√170528 > 250 from the center, so it appears in neither output. -/
theorem C6_center_and_clip_witness :
    250 < scenarioDist 8 8 + scenarioSize 8 8 / 2 ∧
    (∀ d ∈ scenarioRaster, ¬(d.x = 8 ∧ d.y = 8)) ∧
    (∀ c ∈ scenarioSvgCircles, ¬(c.x = 8 ∧ c.y = 8)) := by
  have hdist : (250:ℝ) < scenarioDist 8 8 := by
    unfold scenarioDist
    rw [show (((8:ℚ):ℝ) - 300)^2 + (((8:ℚ):ℝ) - 300)^2 = 170528 by norm_num]
    rw [show (250:ℝ) = Real.sqrt (250^2) from (Real.sqrt_sq (by norm_num)).symm]
    exact Real.sqrt_lt_sqrt (by norm_num) (by norm_num)
  have hsize : (0:ℝ) ≤ scenarioSize 8 8 / 2 := by
    have h1 : (1:ℝ) ≤ scenarioSize 8 8 :=
      le_calculateDotSize .linear 1 1 85 (scenarioDist 8 8) scenarioMaxDistance
        (by norm_num)
    linarith
  have hcond : 250 < scenarioDist 8 8 + scenarioSize 8 8 / 2 := by linarith
  exact ⟨hcond, (C6_center_and_clip.2 8 8 hcond).1, (C6_center_and_clip.2 8 8 hcond).2⟩

/-! ### Singleton groups in the SVG export (C7) -/

/-- Counterexample to C7 as stated: exporting a single isolated circle emits
a native `<circle>` element (with the circle's exact center and radius), not
a two-arc `<path>` — the two-arc branch of `calculateUnionPath` is only
reachable from groups of ≥ 2 circles. -/
theorem C7_singleton_counterexample :
    svgGroupElems [⟨10, 20, 5⟩] = [SvgElem.circleEl 10 20 5] ∧
    (svgGroupElems [⟨10, 20, 5⟩]).any isPathEl = false := by
  constructor <;> rfl

/-- C7 (amended): a Union-Find group of size 1 is emitted as a native
`<circle>` element carrying exactly the member circle's center and radius;
the two-arc path that `calculateUnionPath` produces for a single circle has
arc radii equal to `r` and its two endpoints are diametrically opposite
points at exact distance `r` from the circle's center. -/
theorem C7_singleton (cs : List CircleRec) (g : ℕ × List ℕ) (c : CircleRec)
    (hg : g ∈ getGroups (buildUF cs)) (hlen : g.2.length = 1)
    (hr : (0:ℚ) ≤ c.r) :
    svgGroupElem cs g =
      SvgElem.circleEl (cs.getD (g.2.headD 0) default).x
        (cs.getD (g.2.headD 0) default).y (cs.getD (g.2.headD 0) default).r ∧
    svgGroupElem cs g ∈ svgGroupElems cs ∧
    singleCircleArcPath c =
      [PathCmd.move (c.x - c.r) c.y,
       PathCmd.arc c.r c.r 0 true false (c.x + c.r) c.y,
       PathCmd.arc c.r c.r 0 true false (c.x - c.r) c.y,
       PathCmd.close] ∧
    ((c.x - c.r) + (c.x + c.r)) / 2 = c.x ∧
    Real.sqrt ((((c.x - c.r : ℚ) : ℝ) - (c.x : ℝ))^2 +
      ((c.y : ℝ) - (c.y : ℝ))^2) = (c.r : ℝ) ∧
    Real.sqrt ((((c.x + c.r : ℚ) : ℝ) - (c.x : ℝ))^2 +
      ((c.y : ℝ) - (c.y : ℝ))^2) = (c.r : ℝ) := by
  have hrR : (0:ℝ) ≤ (c.r : ℝ) := by exact_mod_cast hr
  refine ⟨?_, ?_, rfl, by ring, ?_, ?_⟩
  · unfold svgGroupElem
    rw [if_neg (by omega)]
  · unfold svgGroupElems
    exact List.mem_map_of_mem _ hg
  · rw [show (((c.x - c.r : ℚ) : ℝ) - (c.x : ℝ))^2 +
        ((c.y : ℝ) - (c.y : ℝ))^2 = (c.r : ℝ)^2 by push_cast; ring]
    exact Real.sqrt_sq hrR
  · rw [show (((c.x + c.r : ℚ) : ℝ) - (c.x : ℝ))^2 +
        ((c.y : ℝ) - (c.y : ℝ))^2 = (c.r : ℝ)^2 by push_cast; ring]
    exact Real.sqrt_sq hrR

/-- Witness for C7 on the one-circle input `⟨1, 2, 3⟩`. -/
theorem C7_singleton_witness :
    ((0, [0]) ∈ getGroups (buildUF [(⟨1, 2, 3⟩ : CircleRec)]) ∧
     ((0:ℕ), [(0:ℕ)]).2.length = 1 ∧ (0:ℚ) ≤ (3:ℚ)) ∧
    svgGroupElem [(⟨1, 2, 3⟩ : CircleRec)] (0, [0]) =
      SvgElem.circleEl 1 2 3 ∧
    svgGroupElem [(⟨1, 2, 3⟩ : CircleRec)] (0, [0]) ∈
      svgGroupElems [(⟨1, 2, 3⟩ : CircleRec)] := by
  have happ := C7_singleton [(⟨1, 2, 3⟩ : CircleRec)] (0, [0]) ⟨1, 2, 3⟩
    (by decide) rfl (by norm_num)
  exact ⟨⟨by decide, rfl, by norm_num⟩, happ.1, happ.2.1⟩

/-! ### Per-band constant ordering (C8) -/

/-- Counterexample to C8 as stated: the spawn cooldowns are NOT ordered
bass < mid < treble; for both managers the bass cooldown is the longest
(wave: 200/100/50 ms, ripple: 400/200/50 ms). -/
theorem C8_band_ordering_counterexample :
    ¬(waveCooldown .bass < waveCooldown .mid ∧
      waveCooldown .mid < waveCooldown .treble) ∧
    ¬(rippleCooldown .bass < rippleCooldown .mid ∧
      rippleCooldown .mid < rippleCooldown .treble) :=
  ⟨by norm_num [waveCooldown], by norm_num [rippleCooldown]⟩

/-- C8 (amended): spawn speeds are ordered bass < mid < treble, while spawn
cooldowns, emission reach (maxRadius multiplier) and decay persistence
(decayRate) are ordered bass > mid > treble, for both managers. -/
theorem C8_band_ordering :
    (waveSpeed .bass < waveSpeed .mid ∧ waveSpeed .mid < waveSpeed .treble) ∧
    (rippleSpeed .bass < rippleSpeed .mid ∧
      rippleSpeed .mid < rippleSpeed .treble) ∧
    (waveCooldown .treble < waveCooldown .mid ∧
      waveCooldown .mid < waveCooldown .bass) ∧
    (rippleCooldown .treble < rippleCooldown .mid ∧
      rippleCooldown .mid < rippleCooldown .bass) ∧
    (waveMaxRadiusFactor .treble < waveMaxRadiusFactor .mid ∧
      waveMaxRadiusFactor .mid < waveMaxRadiusFactor .bass) ∧
    (rippleMaxRadiusFactor .treble < rippleMaxRadiusFactor .mid ∧
      rippleMaxRadiusFactor .mid < rippleMaxRadiusFactor .bass) ∧
    (waveDecayRate .treble < waveDecayRate .mid ∧
      waveDecayRate .mid < waveDecayRate .bass) ∧
    (rippleDecayRate .treble < rippleDecayRate .mid ∧
      rippleDecayRate .mid < rippleDecayRate .bass) := by
  norm_num [waveSpeed, rippleSpeed, waveCooldown, rippleCooldown,
    waveMaxRadiusFactor, rippleMaxRadiusFactor, waveDecayRate, rippleDecayRate]

/-! ### Offline export pipeline (C9) -/

/-- C9: the sub-sample count is clamped to [1, 4]; the render time of
sub-sample `s` of frame `i` is `(i + (s + 0.5)/samples)/fps`; compositing
sample `s` with source-over alpha `1/(s+1)` (after an initial copy) yields
the exact arithmetic mean of the samples; and frame `i` is delivered with
timestamp `round(i/fps · 10⁶)` microseconds. -/
theorem C9_offline_export :
    (∀ cfg : Option ℚ, 1 ≤ offlineSamples cfg ∧ offlineSamples cfg ≤ 4) ∧
    (∀ (i s samples : ℕ) (fps : ℚ),
      sampleTime i s samples fps =
        ((i : ℚ) + ((s : ℚ) + 1/2) / (samples : ℚ)) / fps) ∧
    (∀ (f : ℕ → ℚ) (samples : ℕ), 1 ≤ samples →
      compositeFrame f samples = (∑ s ∈ Finset.range samples, f s) / samples) ∧
    (∀ (i : ℕ) (fps : ℚ),
      frameTimestampUs i fps = round ((i : ℚ) / fps * 1000000)) := by
  refine ⟨?_, ?_, ?_, fun i fps => rfl⟩
  · intro cfg
    unfold offlineSamples
    exact ⟨le_max_left 1 _, max_le (by norm_num) (min_le_left 4 _)⟩
  · intro i s samples fps
    unfold sampleTime
    norm_num
  · intro f samples
    induction samples with
    | zero => omega
    | succ n ih =>
      rcases Nat.eq_zero_or_pos n with rfl | hn
      · intro _h
        simp [compositeFrame, compositeStep, List.range_succ]
      · intro _h
        have hacc := ih hn
        have hne : ((n : ℚ)) ≠ 0 := Nat.cast_ne_zero.2 (by omega)
        have hne1 : ((n : ℚ)) + 1 ≠ 0 := by positivity
        unfold compositeFrame at hacc ⊢
        rw [List.range_succ, List.foldl_append, List.foldl_cons, List.foldl_nil,
          hacc, Finset.sum_range_succ]
        unfold compositeStep
        rw [if_neg (by omega)]
        push_cast
        field_simp
        ring

/-- Witness for C9: `samples = clamp(3) = 3`, the sample time of frame 2
sub-sample 1 at 2 samples and 30 fps, and the 2-sample composite of
`f = id`. -/
theorem C9_offline_export_witness :
    (1 ≤ offlineSamples (some 3) ∧ offlineSamples (some 3) ≤ 4) ∧
    sampleTime 2 1 2 30 = ((2 : ℚ) + ((1 : ℚ) + 1/2) / (2 : ℚ)) / 30 ∧
    (1 ≤ 2 ∧ compositeFrame (fun s => (s : ℚ)) 2 =
      (∑ s ∈ Finset.range 2, (s : ℚ)) / 2) ∧
    frameTimestampUs 5 30 = round ((5 : ℚ) / 30 * 1000000) :=
  ⟨C9_offline_export.1 (some 3), C9_offline_export.2.1 2 1 2 30,
   ⟨by norm_num, C9_offline_export.2.2.1 (fun s => (s : ℚ)) 2 (by norm_num)⟩,
   C9_offline_export.2.2.2 5 30⟩

/-! ### Wave intensity clamp (C10) -/

/-- C10: `spawnWave` stores `min(intensity, 1)`; consequently — since decay
rates lie in [0, 1] and updates only multiply by them — every wave in the
pool keeps `0 ≤ intensity ≤ 1` across any `update` call; ripple amplitudes
(`intensity · 35` for bass) are not clamped this way and exceed 1 already at
spawn intensity 0.5. -/
theorem C10_wave_intensity_clamp :
    (∀ (maxR : ℚ) (b : Band) (i now : ℚ),
      (spawnWave maxR b i now).intensity = min i 1) ∧
    (∀ (s : WaveManagerState) (audio : AudioData) (sens bi mi ti now : ℚ),
      (∀ w ∈ s.waves, 0 ≤ w.intensity ∧ w.intensity ≤ 1 ∧
        0 ≤ w.decayRate ∧ w.decayRate ≤ 1) →
      (∀ w ∈ (waveManagerUpdate s audio sens bi mi ti now).waves,
        0 ≤ w.intensity ∧ w.intensity ≤ 1 ∧
        0 ≤ w.decayRate ∧ w.decayRate ≤ 1)) ∧
    ((spawnRipple 250 .bass (1/2) 0).amplitude = 35/2 ∧ (1:ℚ) < 35/2) := by
  refine ⟨fun maxR b i now => rfl, ?_,
    by norm_num [spawnRipple, rippleAmplitudeFactor], by norm_num⟩
  intro s audio sens bi mi ti now hinv
  have hprune : ∀ w ∈ updateWavePool s.waves,
      0 ≤ w.intensity ∧ w.intensity ≤ 1 ∧
      0 ≤ w.decayRate ∧ w.decayRate ≤ 1 := by
    intro w hw
    unfold updateWavePool prunePool at hw
    simp only [List.mem_filter, List.mem_map] at hw
    obtain ⟨⟨w0, hw0, rfl⟩, -⟩ := hw
    obtain ⟨h0, h1, h2, h3⟩ := hinv w0 hw0
    simp only [stepWave]
    refine ⟨mul_nonneg h0 h2, ?_, h2, h3⟩
    nlinarith
  have hspawn : ∀ (b : Band) (adj now2 maxR : ℚ), waveThreshold < adj →
      0 ≤ (spawnWave maxR b adj now2).intensity ∧
      (spawnWave maxR b adj now2).intensity ≤ 1 ∧
      0 ≤ (spawnWave maxR b adj now2).decayRate ∧
      (spawnWave maxR b adj now2).decayRate ≤ 1 := by
    intro b adj now2 maxR hadj
    simp only [spawnWave]
    have hadj0 : (0:ℚ) ≤ adj :=
      le_of_lt (lt_trans (by norm_num [waveThreshold]) hadj)
    refine ⟨le_min hadj0 (by norm_num), min_le_right _ _, ?_, ?_⟩ <;>
      cases b <;> norm_num [waveDecayRate]
  have hstep : ∀ (l : List Wave) (c : Prop) (inst : Decidable c) (wn : Wave),
      (∀ w ∈ l, 0 ≤ w.intensity ∧ w.intensity ≤ 1 ∧
        0 ≤ w.decayRate ∧ w.decayRate ≤ 1) →
      (c → 0 ≤ wn.intensity ∧ wn.intensity ≤ 1 ∧
        0 ≤ wn.decayRate ∧ wn.decayRate ≤ 1) →
      ∀ w ∈ (if c then l ++ [wn] else l),
        0 ≤ w.intensity ∧ w.intensity ≤ 1 ∧
        0 ≤ w.decayRate ∧ w.decayRate ≤ 1 := by
    intro l c inst wn hl hn w hw
    split at hw
    case isTrue hc =>
      rcases List.mem_append.1 hw with h | h
      · exact hl w h
      · rw [List.mem_singleton.1 h]
        exact hn hc
    case isFalse hc => exact hl w hw
  intro w hw
  simp only [waveManagerUpdate, apply_ite WaveManagerState.waves] at hw
  exact hstep _ _ _ _
    (hstep _ _ _ _
      (hstep _ _ _ _ hprune (fun hc => hspawn _ _ _ _ hc.1))
      (fun hc => hspawn _ _ _ _ hc.1))
    (fun hc => hspawn _ _ _ _ hc.1) w hw

/-- Witness for C10: one update of a fresh wave manager under full bass
drive keeps every pooled intensity within [0, 1]. -/
theorem C10_wave_intensity_clamp_witness :
    (∀ w ∈ (waveManagerInit 0 0 250).waves,
      0 ≤ w.intensity ∧ w.intensity ≤ 1 ∧
      0 ≤ w.decayRate ∧ w.decayRate ≤ 1) ∧
    (∀ w ∈ (waveManagerUpdate (waveManagerInit 0 0 250) ⟨1, 0, 0, 0⟩
        1 1 1 1 1000).waves,
      0 ≤ w.intensity ∧ w.intensity ≤ 1 ∧
      0 ≤ w.decayRate ∧ w.decayRate ≤ 1) :=
  ⟨by simp [waveManagerInit],
   C10_wave_intensity_clamp.2.1 (waveManagerInit 0 0 250) ⟨1, 0, 0, 0⟩
     1 1 1 1 1000 (by simp [waveManagerInit])⟩
